import Mathlib

/-
Verification of the jasp tokenizer (src/jasp/tokenizer.py).

The Python source is a single left-to-right scan over an indexed string
with an explicit cursor (index i, 1-based line and col).  We embed the
source string as a List Char and represent the cursor index by the
remaining suffix of the input: Python's source[i] is the head of the
suffix, the lookahead test i < len(source) - 1 is "the tail of the
suffix is nonempty", and source[i+1] is the head of that tail.  The
inner while loops (digit run, string body, identifier run) become
structurally recursive functions on the suffix; the body of the main
while loop becomes stepOf (the if/elif classification chain, producing
at most one token and the suffix at which scanning resumes) wrapped in
tokBody (the line/col bookkeeping of one iteration), iterated by the
fuel-indexed tokLoopF whose fuel is the length of the remaining input,
always sufficient because every iteration consumes at least one
character.
-/

namespace Jasp

/-- Character class of the regex [0-9] (DIGIT_RE); 48 and 57 are the
ASCII codes of the characters 0 and 9. -/
def isDigitC (c : Char) : Prop := 48 ≤ c.toNat ∧ c.toNat ≤ 57

instance (c : Char) : Decidable (isDigitC c) := by unfold isDigitC; infer_instance

/-- Character class of the regex \s+ (WHITESPACE_RE) restricted to the
ASCII range: space, tab, line feed, carriage return, vertical tab and
form feed.  Only the skip branch tests this class, and skipped
characters produce no token, so the exact extension beyond these six
characters is irrelevant to every theorem below. -/
def isWs (c : Char) : Prop :=
  c = ' ' ∨ c = '\t' ∨ c = '\n' ∨ c = '\r' ∨ c = '\x0b' ∨ c = '\x0c'

instance (c : Char) : Decidable (isWs c) := by unfold isWs; infer_instance

/-- Character class of the regex [a-z_] (IDENTIFIER_RE1); 97 and 122
are the ASCII codes of a and z. -/
def isIdent1 (c : Char) : Prop := (97 ≤ c.toNat ∧ c.toNat ≤ 122) ∨ c = '_'

instance (c : Char) : Decidable (isIdent1 c) := by unfold isIdent1; infer_instance

/-- Character class of the regex [a-z_\-0-9] (IDENTIFIER_RE2). -/
def isIdent2 (c : Char) : Prop := isIdent1 c ∨ c = '-' ∨ isDigitC c

instance (c : Char) : Decidable (isIdent2 c) := by unfold isIdent2; infer_instance

/-- Character class of the regex [+\-*/] (ARITHMETIC_RE). -/
def isArith (c : Char) : Prop := c = '+' ∨ c = '-' ∨ c = '*' ∨ c = '/'

instance (c : Char) : Decidable (isArith c) := by unfold isArith; infer_instance

/-- Character class of the regex [=<>] (OPERATOR_RE). -/
def isOp (c : Char) : Prop := c = '=' ∨ c = '<' ∨ c = '>'

instance (c : Char) : Decidable (isOp c) := by unfold isOp; infer_instance

/-- Python's int() applied to a string of decimal digits. -/
def natOfDigits (ds : List Char) : Nat :=
  ds.foldl (fun a c => 10 * a + (c.toNat - 48)) 0

/-- Lookahead test of line 88 of the source: i < len(source) - 1 and
DIGIT_RE.match(source[i+1]), phrased on the suffix after the current
character. -/
def headIsDigit : List Char → Prop
  | [] => False
  | c :: _ => isDigitC c

instance : (l : List Char) → Decidable (headIsDigit l)
  | [] => inferInstanceAs (Decidable False)
  | c :: _ => inferInstanceAs (Decidable (isDigitC c))

/-- Lookahead test of line 134 of the source: i < len(source) - 1 and
source[i+1] == '='. -/
def headIsEq : List Char → Prop
  | [] => False
  | c :: _ => c = '='

instance : (l : List Char) → Decidable (headIsEq l)
  | [] => inferInstanceAs (Decidable False)
  | c :: _ => inferInstanceAs (Decidable (c = '='))

/-- Head test with IDENTIFIER_RE2, used to express where the identifier
inner loop stops. -/
def headIsIdent2 : List Char → Prop
  | [] => False
  | c :: _ => isIdent2 c

instance : (l : List Char) → Decidable (headIsIdent2 l)
  | [] => inferInstanceAs (Decidable False)
  | c :: _ => inferInstanceAs (Decidable (isIdent2 c))

/-- The two TypeError exceptions tokenize can raise: line 89 ("you may
only use a single zero", the leading-zero error) and line 114 ("missing
closing double quotes", the unterminated-string error). -/
inductive LexError where
  | leadingZero : LexError
  | unterminatedString : LexError
deriving DecidableEq, Repr

/-- Payload of a token.  The Python Token stores heterogeneous values:
strings for paren direction, string and identifier content, arithmetic
and operator spellings; ints for numbers; bools for booleans. -/
inductive TokValue where
  | vstr : List Char → TokValue
  | vnum : Nat → TokValue
  | vbool : Bool → TokValue
deriving DecidableEq, Repr

/-- The Token class: a type tag (the Python code passes the strings
"paren", "number", "string", "identifier", "bool", "arithmetic",
"operator"), a value, and the 1-based line and col stamped at
emission. -/
structure Token where
  type : String
  value : TokValue
  line : Nat
  col : Nat
deriving DecidableEq, Repr

/-- Inner while loop of the number branch (lines 93-100): starting
after the current character, consume digits, appending them to value;
on the first non-digit the index is restored so the outer loop resumes
at that character.  Returns (accumulated value, remaining suffix). -/
def scanNum : List Char → List Char → List Char × List Char
  | [], value => (value, [])
  | c :: rest, value =>
    if isDigitC c then scanNum rest (value ++ [c])
    else (value, c :: rest)

/-- Inner while loop of the string branch (lines 105-112): consume
characters into value until an unescaped double quote (previous
consumed character not a backslash); the quote is consumed and not
appended.  The second argument is Python's char variable, initially the
opening quote; it becomes the prev of the next character.  Returns
(value, final char, remaining suffix): on break the final char is the
closing quote and the suffix starts after it, on end of input the
suffix is empty and the final char is the last character examined. -/
def scanStr : List Char → Char → List Char → List Char × Char × List Char
  | [], ch, value => (value, ch, [])
  | c :: rest, prev, value =>
    if c = '"' ∧ ¬ prev = '\\' then (value, c, rest)
    else scanStr rest c (value ++ [c])

/-- Inner while loop of the identifier branch (lines 118-125),
analogous to scanNum with IDENTIFIER_RE2. -/
def scanIdent : List Char → List Char → List Char × List Char
  | [], value => (value, [])
  | c :: rest, value =>
    if isIdent2 c then scanIdent rest (value ++ [c])
    else (value, c :: rest)

/-- Lines 126-129 of the source: a finished identifier lexeme is a
bool token if it is exactly true or false (with value the Python
expression value == 'true'), and an identifier token otherwise. -/
def classifyWord (lexeme : List Char) (line col : Nat) : Token :=
  if lexeme = ['t', 'r', 'u', 'e'] ∨ lexeme = ['f', 'a', 'l', 's', 'e'] then
    ⟨"bool", .vbool (lexeme == ['t', 'r', 'u', 'e']), line, col⟩
  else
    ⟨"identifier", .vstr lexeme, line, col⟩

/-- The if/elif classification chain of the main loop (lines 81-137),
applied to the current character char and the suffix rest after it,
with line2 and col2 the position values in effect for this iteration
(already adjusted for a line feed by lines 78-80).  Returns the error
raised, or the token emitted by this iteration (if any) together with
the suffix at which the next iteration resumes (the combined effect of
the inner-loop index moves and the i + 1 of line 138). -/
def stepOf (char : Char) (rest : List Char) (line2 col2 : Nat) :
    Except LexError (Option Token × List Char) :=
  if char = '(' then
    .ok (some ⟨"paren", .vstr ['o', 'p', 'e', 'n'], line2, col2⟩, rest)
  else if char = ')' then
    .ok (some ⟨"paren", .vstr ['c', 'l', 'o', 's', 'e'], line2, col2⟩, rest)
  else if isWs char then
    .ok (none, rest)
  else if char = '0' then
    if headIsDigit rest then .error .leadingZero
    else .ok (some ⟨"number", .vnum (natOfDigits [char]), line2, col2⟩, rest)
  else if isDigitC char then
    .ok (some ⟨"number", .vnum (natOfDigits (scanNum rest [char]).1), line2, col2⟩,
      (scanNum rest [char]).2)
  else if char = '"' then
    if (scanStr rest char []).2.2 = [] ∧ ¬ (scanStr rest char []).2.1 = '"' then
      .error .unterminatedString
    else
      .ok (some ⟨"string", .vstr (scanStr rest char []).1, line2, col2⟩,
        (scanStr rest char []).2.2)
  else if isIdent1 char then
    .ok (some (classifyWord (scanIdent rest [char]).1 line2 col2),
      (scanIdent rest [char]).2)
  else if isArith char then
    .ok (some ⟨"arithmetic", .vstr [char], line2, col2⟩, rest)
  else if isOp char then
    if headIsEq rest then
      .ok (some ⟨"operator", .vstr [char, '='], line2, col2⟩, rest.tail)
    else
      .ok (some ⟨"operator", .vstr [char], line2, col2⟩, rest)
  else
    .ok (none, rest)

/-- One iteration of the main while loop of tokenize (lines 76-139),
parameterized by the continuation k used to scan the rest of the
input.  A line feed first bumps line and resets col (lines 78-80);
then stepOf classifies the character; and every iteration ends with
the uniform col + 1 advance of line 139. -/
def tokBody (k : List Char → Nat → Nat → List Token → Except LexError (List Token)) :
    List Char → Nat → Nat → List Token → Except LexError (List Token)
  | [], _, _, acc => .ok acc
  | char :: rest, line, col, acc =>
    let line2 := if char = '\n' then line + 1 else line
    let col2 := if char = '\n' then 1 else col
    match stepOf char rest line2 col2 with
    | .error e => .error e
    | .ok (none, todo2) => k todo2 line2 (col2 + 1) acc
    | .ok (some t, todo2) => k todo2 line2 (col2 + 1) (acc ++ [t])

/-- The main while loop: iterate tokBody, indexed by fuel.  Fuel 0 with
input remaining is never reached from tokenize because every iteration
consumes at least one character. -/
def tokLoopF : Nat → List Char → Nat → Nat → List Token → Except LexError (List Token)
  | 0, _, _, _, acc => .ok acc
  | n + 1, todo, line, col, acc => tokBody (tokLoopF n) todo line col acc

/-- The main loop at its canonical fuel, the length of the remaining
input. -/
def tokLoop (todo : List Char) (line col : Nat) (acc : List Token) :
    Except LexError (List Token) :=
  tokLoopF todo.length todo line col acc

/-- tokenize (line 50): scan the whole source starting at index 0,
line 1, col 1, with an empty token list. -/
def tokenize (source : List Char) : Except LexError (List Token) :=
  tokLoop source 1 1 []

/-- Sanity check against the example in the tokenize docstring
(lines 65-70 of the source), with the positions the code computes. -/
theorem tokenize_docstring_example : tokenize "(+ 3 243)".toList =
    .ok [⟨"paren", .vstr ['o', 'p', 'e', 'n'], 1, 1⟩,
         ⟨"arithmetic", .vstr ['+'], 1, 2⟩,
         ⟨"number", .vnum 3, 1, 4⟩,
         ⟨"number", .vnum 243, 1, 6⟩,
         ⟨"paren", .vstr ['c', 'l', 'o', 's', 'e'], 1, 7⟩] := rfl

/-- The main loop returns the accumulator once the input is exhausted,
at any fuel. -/
theorem tokLoopF_nil (n line col : Nat) (acc : List Token) :
    tokLoopF n [] line col acc = .ok acc := by
  cases n <;> rfl

/-- The digit scanner never lengthens the remaining input. -/
theorem scanNum_todo_len : ∀ (l : List Char) (v : List Char),
    (scanNum l v).2.length ≤ l.length := by
  intro l
  induction l with
  | nil => intro v; simp [scanNum]
  | cons c rest ih =>
    intro v
    by_cases h : isDigitC c
    · calc (scanNum (c :: rest) v).2.length
          = (scanNum rest (v ++ [c])).2.length := by rw [scanNum, if_pos h]
        _ ≤ rest.length := ih _
        _ ≤ (c :: rest).length := by simp
    · rw [scanNum, if_neg h]

/-- The string scanner never lengthens the remaining input. -/
theorem scanStr_todo_len : ∀ (l : List Char) (ch : Char) (v : List Char),
    (scanStr l ch v).2.2.length ≤ l.length := by
  intro l
  induction l with
  | nil => intro ch v; simp [scanStr]
  | cons c rest ih =>
    intro ch v
    by_cases h : c = '"' ∧ ¬ ch = '\\'
    · rw [scanStr, if_pos h]; simp
    · calc (scanStr (c :: rest) ch v).2.2.length
          = (scanStr rest c (v ++ [c])).2.2.length := by rw [scanStr, if_neg h]
        _ ≤ rest.length := ih _ _
        _ ≤ (c :: rest).length := by simp

/-- The identifier scanner never lengthens the remaining input. -/
theorem scanIdent_todo_len : ∀ (l : List Char) (v : List Char),
    (scanIdent l v).2.length ≤ l.length := by
  intro l
  induction l with
  | nil => intro v; simp [scanIdent]
  | cons c rest ih =>
    intro v
    by_cases h : isIdent2 c
    · calc (scanIdent (c :: rest) v).2.length
          = (scanIdent rest (v ++ [c])).2.length := by rw [scanIdent, if_pos h]
        _ ≤ rest.length := ih _
        _ ≤ (c :: rest).length := by simp
    · rw [scanIdent, if_neg h]

/-- One iteration resumes at a suffix no longer than the suffix after
the current character. -/
theorem stepOf_todo_len (char : Char) (rest : List Char) (line2 col2 : Nat)
    (o : Option Token) (todo2 : List Char)
    (h : stepOf char rest line2 col2 = .ok (o, todo2)) :
    todo2.length ≤ rest.length := by
  have htail : rest.tail.length ≤ rest.length := by cases rest <;> simp
  unfold stepOf at h
  repeat' split at h
  all_goals
    first
    | exact (Except.noConfusion h)
    | (simp only [Except.ok.injEq, Prod.mk.injEq] at h
       obtain ⟨h1, h2⟩ := h
       subst h2
       first
       | exact le_refl _
       | exact scanNum_todo_len _ _
       | exact scanStr_todo_len _ _ _
       | exact scanIdent_todo_len _ _
       | exact htail)

/-- Fuel irrelevance: any fuel at least the length of the remaining
input gives the same result, since every iteration consumes at least
one character. -/
theorem tokLoopF_irrel : ∀ (n m : Nat) (todo : List Char) (line col : Nat)
    (acc : List Token), todo.length ≤ n → todo.length ≤ m →
    tokLoopF n todo line col acc = tokLoopF m todo line col acc := by
  intro n
  induction n with
  | zero =>
    intro m todo line col acc hn _
    have h0 : todo = [] := List.length_eq_zero.mp (Nat.le_zero.mp hn)
    subst h0
    rw [tokLoopF_nil, tokLoopF_nil]
  | succ n ih =>
    intro m todo line col acc hn hm
    cases todo with
    | nil => rw [tokLoopF_nil, tokLoopF_nil]
    | cons c rest =>
      cases m with
      | zero => simp at hm
      | succ m =>
        have hn' : rest.length ≤ n := by simp at hn; omega
        have hm' : rest.length ≤ m := by simp at hm; omega
        show tokBody (tokLoopF n) (c :: rest) line col acc
          = tokBody (tokLoopF m) (c :: rest) line col acc
        simp only [tokBody]
        cases hstep : stepOf c rest (if c = '\n' then line + 1 else line)
            (if c = '\n' then 1 else col) with
        | error e => rfl
        | ok p =>
          obtain ⟨o, todo2⟩ := p
          have hlen := stepOf_todo_len _ _ _ _ _ _ hstep
          cases o with
          | none => exact ih _ _ _ _ _ (le_trans hlen hn') (le_trans hlen hm')
          | some t => exact ih _ _ _ _ _ (le_trans hlen hn') (le_trans hlen hm')

/-- Unfolding of one iteration of the canonical-fuel loop. -/
theorem tokLoop_cons (char : Char) (rest : List Char) (line col : Nat)
    (acc : List Token) :
    tokLoop (char :: rest) line col acc =
      match stepOf char rest (if char = '\n' then line + 1 else line)
          (if char = '\n' then 1 else col) with
      | .error e => .error e
      | .ok (none, todo2) =>
        tokLoop todo2 (if char = '\n' then line + 1 else line)
          ((if char = '\n' then 1 else col) + 1) acc
      | .ok (some t, todo2) =>
        tokLoop todo2 (if char = '\n' then line + 1 else line)
          ((if char = '\n' then 1 else col) + 1) (acc ++ [t]) := by
  show tokBody (tokLoopF rest.length) (char :: rest) line col acc = _
  simp only [tokBody]
  cases hstep : stepOf char rest (if char = '\n' then line + 1 else line)
      (if char = '\n' then 1 else col) with
  | error e => rfl
  | ok p =>
    obtain ⟨o, todo2⟩ := p
    have hlen := stepOf_todo_len _ _ _ _ _ _ hstep
    cases o with
    | none => exact tokLoopF_irrel _ _ _ _ _ _ hlen (le_refl _)
    | some t => exact tokLoopF_irrel _ _ _ _ _ _ hlen (le_refl _)

/-- An iteration that emits a token appends it to the accumulator and
continues at the returned suffix with col advanced by one. -/
theorem tokLoop_emit (char : Char) (rest todo2 : List Char) (line col : Nat)
    (acc : List Token) (t : Token) (hnl : ¬ char = '\n')
    (hstep : stepOf char rest line col = .ok (some t, todo2)) :
    tokLoop (char :: rest) line col acc = tokLoop todo2 line (col + 1) (acc ++ [t]) := by
  rw [tokLoop_cons]
  simp only [if_neg hnl]
  rw [hstep]

/-- An iteration that emits nothing continues at the returned suffix
with col advanced by one. -/
theorem tokLoop_skip (char : Char) (rest todo2 : List Char) (line col : Nat)
    (acc : List Token) (hnl : ¬ char = '\n')
    (hstep : stepOf char rest line col = .ok (none, todo2)) :
    tokLoop (char :: rest) line col acc = tokLoop todo2 line (col + 1) acc := by
  rw [tokLoop_cons]
  simp only [if_neg hnl]
  rw [hstep]

/-- An iteration whose classification raises aborts the whole scan with
that error. -/
theorem tokLoop_err (char : Char) (rest : List Char) (line col : Nat)
    (acc : List Token) (e : LexError) (hnl : ¬ char = '\n')
    (hstep : stepOf char rest line col = .error e) :
    tokLoop (char :: rest) line col acc = .error e := by
  rw [tokLoop_cons]
  simp only [if_neg hnl]
  rw [hstep]

/-- A digit character is not matched by any earlier branch of the
classification chain. -/
theorem isDigitC_noEarlier (c : Char) (h : isDigitC c) :
    ¬ c = '(' ∧ ¬ c = ')' ∧ ¬ isWs c ∧ ¬ c = '\n' := by
  refine ⟨fun he => ?_, fun he => ?_, fun hw => ?_, fun he => ?_⟩
  · subst he; exact absurd h (by decide)
  · subst he; exact absurd h (by decide)
  · rcases hw with he | he | he | he | he | he <;>
      (subst he; exact absurd h (by decide))
  · subst he; exact absurd h (by decide)

/-- An identifier-start character is not matched by any earlier branch
of the classification chain. -/
theorem isIdent1_noEarlier (c : Char) (h : isIdent1 c) :
    ¬ c = '(' ∧ ¬ c = ')' ∧ ¬ isWs c ∧ ¬ c = '0' ∧ ¬ isDigitC c ∧ ¬ c = '"'
      ∧ ¬ c = '\n' := by
  refine ⟨fun he => ?_, fun he => ?_, fun hw => ?_, fun he => ?_, fun hd => ?_,
    fun he => ?_, fun he => ?_⟩
  · subst he; exact absurd h (by decide)
  · subst he; exact absurd h (by decide)
  · rcases hw with he | he | he | he | he | he <;>
      (subst he; exact absurd h (by decide))
  · subst he; exact absurd h (by decide)
  · rcases h with ⟨ha, hb⟩ | he
    · obtain ⟨hd1, hd2⟩ := hd; omega
    · subst he; exact absurd hd (by decide)
  · subst he; exact absurd h (by decide)
  · subst he; exact absurd h (by decide)

/-- An operator character is not matched by any earlier branch of the
classification chain. -/
theorem isOp_noEarlier (c : Char) (h : isOp c) :
    ¬ c = '(' ∧ ¬ c = ')' ∧ ¬ isWs c ∧ ¬ c = '0' ∧ ¬ isDigitC c ∧ ¬ c = '"'
      ∧ ¬ isIdent1 c ∧ ¬ isArith c ∧ ¬ c = '\n' := by
  rcases h with he | he | he <;> subst he <;> decide

/-- Classification of a line feed: handled by the whitespace branch,
no token. -/
theorem stepOf_newline (rest : List Char) (line2 col2 : Nat) :
    stepOf '\n' rest line2 col2 = .ok (none, rest) := rfl

/-- Classification of an opening parenthesis (lines 81-82). -/
theorem stepOf_open (rest : List Char) (line2 col2 : Nat) :
    stepOf '(' rest line2 col2 =
      .ok (some ⟨"paren", .vstr ['o', 'p', 'e', 'n'], line2, col2⟩, rest) := rfl

/-- Classification of a closing parenthesis (lines 83-84). -/
theorem stepOf_close (rest : List Char) (line2 col2 : Nat) :
    stepOf ')' rest line2 col2 =
      .ok (some ⟨"paren", .vstr ['c', 'l', 'o', 's', 'e'], line2, col2⟩, rest) := rfl

/-- Classification of the character 0 (lines 87-90): error when the
next character is a digit, the token Number(0) otherwise. -/
theorem stepOf_zero (rest : List Char) (line2 col2 : Nat) :
    stepOf '0' rest line2 col2 =
      if headIsDigit rest then .error .leadingZero
      else .ok (some ⟨"number", .vnum 0, line2, col2⟩, rest) := rfl

/-- Classification of a nonzero digit (lines 91-101): the inner digit
scan supplies the token value and the resume suffix. -/
theorem stepOf_digit (c : Char) (rest : List Char) (line2 col2 : Nat)
    (h : isDigitC c) (h0 : ¬ c = '0') :
    stepOf c rest line2 col2 =
      .ok (some ⟨"number", .vnum (natOfDigits (scanNum rest [c]).1), line2, col2⟩,
        (scanNum rest [c]).2) := by
  obtain ⟨h1, h2, h3, _⟩ := isDigitC_noEarlier c h
  unfold stepOf
  rw [if_neg h1, if_neg h2, if_neg h3, if_neg h0, if_pos h]

/-- Classification of a double quote (lines 102-115): the inner string
scan supplies the value, and the iteration fails when the scan reached
the end of input with the last character not a double quote. -/
theorem stepOf_quote (rest : List Char) (line2 col2 : Nat) :
    stepOf '"' rest line2 col2 =
      if (scanStr rest '"' []).2.2 = [] ∧ ¬ (scanStr rest '"' []).2.1 = '"' then
        .error .unterminatedString
      else
        .ok (some ⟨"string", .vstr (scanStr rest '"' []).1, line2, col2⟩,
          (scanStr rest '"' []).2.2) := rfl

/-- Classification of an identifier-start character (lines 116-129). -/
theorem stepOf_ident (c : Char) (rest : List Char) (line2 col2 : Nat)
    (h : isIdent1 c) :
    stepOf c rest line2 col2 =
      .ok (some (classifyWord (scanIdent rest [c]).1 line2 col2),
        (scanIdent rest [c]).2) := by
  obtain ⟨h1, h2, h3, h4, h5, h6, _⟩ := isIdent1_noEarlier c h
  unfold stepOf
  rw [if_neg h1, if_neg h2, if_neg h3, if_neg h4, if_neg h5, if_neg h6, if_pos h]

/-- Classification of an operator character followed by an equals sign
(lines 132-137): the equals sign is consumed and appended. -/
theorem stepOf_op2 (c : Char) (rest2 : List Char) (line2 col2 : Nat)
    (h : isOp c) :
    stepOf c ('=' :: rest2) line2 col2 =
      .ok (some ⟨"operator", .vstr [c, '='], line2, col2⟩, rest2) := by
  obtain ⟨h1, h2, h3, h4, h5, h6, h7, h8, _⟩ := isOp_noEarlier c h
  unfold stepOf
  rw [if_neg h1, if_neg h2, if_neg h3, if_neg h4, if_neg h5, if_neg h6, if_neg h7,
    if_neg h8, if_pos h, if_pos (by exact rfl : headIsEq ('=' :: rest2))]
  rfl

/-- Classification of an operator character not followed by an equals
sign (lines 132-137): a single-character operator. -/
theorem stepOf_op1 (c : Char) (rest : List Char) (line2 col2 : Nat)
    (h : isOp c) (hne : ¬ headIsEq rest) :
    stepOf c rest line2 col2 =
      .ok (some ⟨"operator", .vstr [c], line2, col2⟩, rest) := by
  obtain ⟨h1, h2, h3, h4, h5, h6, h7, h8, _⟩ := isOp_noEarlier c h
  unfold stepOf
  rw [if_neg h1, if_neg h2, if_neg h3, if_neg h4, if_neg h5, if_neg h6, if_neg h7,
    if_neg h8, if_pos h, if_neg hne]

/-- Classification of a character matched by no rule: skipped, no
token, no error (the final fallthrough of the if/elif chain). -/
theorem stepOf_unmatched (c : Char) (rest : List Char) (line2 col2 : Nat)
    (h1 : ¬ c = '(') (h2 : ¬ c = ')') (h3 : ¬ isWs c) (h4 : ¬ c = '0')
    (h5 : ¬ isDigitC c) (h6 : ¬ c = '"') (h7 : ¬ isIdent1 c) (h8 : ¬ isArith c)
    (h9 : ¬ isOp c) :
    stepOf c rest line2 col2 = .ok (none, rest) := by
  unfold stepOf
  rw [if_neg h1, if_neg h2, if_neg h3, if_neg h4, if_neg h5, if_neg h6, if_neg h7,
    if_neg h8, if_neg h9]

/-- Characterization of the digit scan: a run of digits followed by a
suffix not starting with a digit is consumed exactly, and the scan
resumes at that suffix. -/
theorem scanNum_spec : ∀ (ds rest v : List Char), (∀ c ∈ ds, isDigitC c) →
    ¬ headIsDigit rest → scanNum (ds ++ rest) v = (v ++ ds, rest) := by
  intro ds
  induction ds with
  | nil =>
    intro rest v _ hrest
    cases rest with
    | nil => simp [scanNum]
    | cons c r =>
      have hc : ¬ isDigitC c := hrest
      simp [scanNum, if_neg hc]
  | cons d ds ih =>
    intro rest v hds hrest
    have hd : isDigitC d := hds d (by simp)
    have hds' : ∀ c ∈ ds, isDigitC c := fun c hc => hds c (by simp [hc])
    calc scanNum ((d :: ds) ++ rest) v
        = scanNum (ds ++ rest) (v ++ [d]) := by
          rw [List.cons_append, scanNum, if_pos hd]
      _ = (v ++ [d] ++ ds, rest) := ih rest (v ++ [d]) hds' hrest
      _ = (v ++ (d :: ds), rest) := by simp

/-- Characterization of the identifier scan: a run of identifier
characters followed by a suffix not starting with one is consumed
exactly, and the scan resumes at that suffix. -/
theorem scanIdent_spec : ∀ (l rest v : List Char), (∀ c ∈ l, isIdent2 c) →
    ¬ headIsIdent2 rest → scanIdent (l ++ rest) v = (v ++ l, rest) := by
  intro l
  induction l with
  | nil =>
    intro rest v _ hrest
    cases rest with
    | nil => simp [scanIdent]
    | cons c r =>
      have hc : ¬ isIdent2 c := hrest
      simp [scanIdent, if_neg hc]
  | cons d l ih =>
    intro rest v hl hrest
    have hd : isIdent2 d := hl d (by simp)
    have hl' : ∀ c ∈ l, isIdent2 c := fun c hc => hl c (by simp [hc])
    calc scanIdent ((d :: l) ++ rest) v
        = scanIdent (l ++ rest) (v ++ [d]) := by
          rw [List.cons_append, scanIdent, if_pos hd]
      _ = (v ++ [d] ++ l, rest) := ih rest (v ++ [d]) hl' hrest
      _ = (v ++ (d :: l), rest) := by simp

/-- The condition under which the string scan, entered with prev the
given character, consumes all of the content without breaking, and
then breaks at the quote that follows it: every quote in the content
is preceded (in the running prev sense) by a backslash, and the last
consumed character is not a backslash. -/
def okChain : Char → List Char → Prop
  | prev, [] => ¬ prev = '\\'
  | prev, c :: cs => (c = '"' → prev = '\\') ∧ okChain c cs

/-- Characterization of the string scan on a content satisfying
okChain: the content is accumulated verbatim, the scan breaks exactly
at the following quote, and resumes after it. -/
theorem scanStr_chain : ∀ (content rest : List Char) (prev : Char) (v : List Char),
    okChain prev content →
    scanStr (content ++ '"' :: rest) prev v = (v ++ content, '"', rest) := by
  intro content
  induction content with
  | nil =>
    intro rest prev v hch
    have hp : ¬ prev = '\\' := hch
    rw [List.nil_append, scanStr, if_pos ⟨rfl, hp⟩]
    simp
  | cons c cs ih =>
    intro rest prev v hch
    obtain ⟨h1, h2⟩ := hch
    have hnb : ¬ (c = '"' ∧ ¬ prev = '\\') := by
      rintro ⟨hc, hp⟩; exact hp (h1 hc)
    calc scanStr ((c :: cs) ++ '"' :: rest) prev v
        = scanStr (cs ++ '"' :: rest) c (v ++ [c]) := by
          rw [List.cons_append, scanStr, if_neg hnb]
      _ = (v ++ [c] ++ cs, '"', rest) := ih rest c (v ++ [c]) h2
      _ = (v ++ (c :: cs), '"', rest) := by simp

/-- The spec-side description of a string body in which every double
quote is escaped: a quote may only occur immediately after a
backslash, and never in the first position. -/
def noUnescapedQuote (content : List Char) : Prop :=
  ∀ j, j < content.length → content.getD j ' ' = '"' →
    1 ≤ j ∧ content.getD (j - 1) ' ' = '\\'

instance (content : List Char) : Decidable (noUnescapedQuote content) := by
  unfold noUnescapedQuote; infer_instance

/-- Position-indexed escaping gives the running-prev chain condition. -/
theorem okChain_of_forall : ∀ (content : List Char) (prev : Char),
    (∀ j, j < content.length → content.getD j ' ' = '"' →
      (if j = 0 then prev else content.getD (j - 1) ' ') = '\\') →
    ¬ content.getLastD prev = '\\' →
    okChain prev content := by
  intro content
  induction content with
  | nil => intro prev _ hlast; exact hlast
  | cons c cs ih =>
    intro prev hq hlast
    constructor
    · intro hc
      have h0 := hq 0 (by simp) (by simpa using hc)
      simpa using h0
    · apply ih c
      · intro j hj hcj
        have h2 := hq (j + 1) (by simp; omega) (by simpa using hcj)
        cases j with
        | zero => simpa using h2
        | succ k => simpa using h2
      · rw [List.getLastD_cons] at hlast
        exact hlast

/-- An all-escaped content whose last character is not a backslash
satisfies the chain condition entered from the opening quote. -/
theorem okChain_of_noUnescaped (content : List Char)
    (h : noUnescapedQuote content) (hl : ¬ content.getLastD '"' = '\\') :
    okChain '"' content := by
  apply okChain_of_forall
  · intro j hj hcj
    obtain ⟨h1, h2⟩ := h j hj hcj
    rw [if_neg (by omega)]
    exact h2
  · exact hl

/-- The condition under which the string scan, entered with prev the
given character, never breaks before the end of the suffix — that is,
the source ends before an unescaped closing quote is found: every
double quote in the suffix is preceded, in the running-prev sense, by
a backslash.  Unlike okChain it places no constraint on the last
character. -/
def allEscaped : Char → List Char → Prop
  | _, [] => True
  | prev, c :: cs => (c = '"' → prev = '\\') ∧ allEscaped c cs

instance instDecAllEscaped : (prev : Char) → (l : List Char) → Decidable (allEscaped prev l)
  | _, [] => inferInstanceAs (Decidable True)
  | prev, c :: cs =>
    haveI := instDecAllEscaped c cs
    inferInstanceAs (Decidable ((c = '"' → prev = '\\') ∧ allEscaped c cs))

/-- Characterization of the string scan when the source ends before an
unescaped closing quote: everything is consumed verbatim into the
value, the remaining suffix is empty, and the final char variable is
the last character of the suffix (the initial prev — the opening
quote — when the suffix is empty), exactly Python's source[i] at exit
from the loop of lines 105-112. -/
theorem scanStr_exhaust : ∀ (rest : List Char) (prev : Char) (v : List Char),
    allEscaped prev rest →
    scanStr rest prev v = (v ++ rest, rest.getLastD prev, []) := by
  intro rest
  induction rest with
  | nil => intro prev v _; simp [scanStr]
  | cons c cs ih =>
    intro prev v h
    obtain ⟨h1, h2⟩ := h
    have hnb : ¬ (c = '"' ∧ ¬ prev = '\\') := by
      rintro ⟨hc, hp⟩; exact hp (h1 hc)
    rw [scanStr, if_neg hnb, ih c (v ++ [c]) h2, List.getLastD_cons]
    simp

/-- A suffix containing no double quote at all trivially satisfies the
never-breaks condition, whatever prev is. -/
theorem allEscaped_of_no_quote : ∀ (l : List Char) (prev : Char), '"' ∉ l →
    allEscaped prev l := by
  intro l
  induction l with
  | nil => intro prev _; trivial
  | cons c cs ih =>
    intro prev hq
    have h1 : ¬ '"' = c ∧ '"' ∉ cs := by simpa [List.mem_cons, not_or] using hq
    exact ⟨fun hc => absurd hc.symm h1.1, ih c h1.2⟩

/-- On a nonempty list, getLastD returns an element of the list. -/
theorem getLastD_mem_of_ne_nil : ∀ (l : List Char) (d : Char), l ≠ [] →
    l.getLastD d ∈ l := by
  intro l
  induction l with
  | nil => intro d h; exact absurd rfl h
  | cons c cs ih =>
    intro d _
    rw [List.getLastD_cons]
    cases cs with
    | nil => simp
    | cons c2 cs2 => exact List.mem_cons_of_mem c (ih c (by simp))

/-- The operator spellings the scanner can actually produce: the three
single characters of OPERATOR_RE, each optionally followed by an
equals sign. -/
def opValOK (t : Token) : Prop :=
  t.type = "operator" →
    t.value ∈ [TokValue.vstr ['='], TokValue.vstr ['<'], TokValue.vstr ['>'],
      TokValue.vstr ['=', '='], TokValue.vstr ['<', '='], TokValue.vstr ['>', '=']]

/-- The word classifier stamps the line it is given. -/
theorem classifyWord_line (lexeme : List Char) (line col : Nat) :
    (classifyWord lexeme line col).line = line := by
  unfold classifyWord
  split <;> rfl

/-- The word classifier never produces an operator token. -/
theorem classifyWord_opValOK (lexeme : List Char) (line col : Nat) :
    opValOK (classifyWord lexeme line col) := by
  unfold classifyWord
  split <;> (intro hop; simp at hop)

/-- Every token emitted by one iteration is stamped with the line of
that iteration and, when it is an operator token, carries one of the
six producible spellings. -/
theorem stepOf_emit_props (char : Char) (rest : List Char) (line2 col2 : Nat)
    (t : Token) (todo2 : List Char)
    (h : stepOf char rest line2 col2 = .ok (some t, todo2)) :
    t.line = line2 ∧ opValOK t := by
  unfold stepOf at h
  repeat' split at h
  all_goals
    first
    | exact (Except.noConfusion h)
    | (simp only [Except.ok.injEq, Prod.mk.injEq, Option.some.injEq] at h
       first
       | exact (Option.noConfusion h.1)
       | (obtain ⟨h1, h2⟩ := h
          subst h1
          refine ⟨?_, ?_⟩
          · first
            | rfl
            | exact classifyWord_line _ _ _
          · first
            | exact classifyWord_opValOK _ _ _
            | (intro hop
               first
               | (rename_i hIsOp hEq
                  rcases hIsOp with he | he | he <;> subst he <;> simp)
               | simp at hop)))

/-- Main loop soundness for the two output invariants: starting from
an accumulator whose tokens are all stamped at or before the current
line, are line-sorted, and have producible operator values, a
successful scan returns a list whose tokens all have producible
operator values and whose line stamps are non-decreasing. -/
theorem tokLoopF_sound : ∀ (n : Nat) (todo : List Char) (line col : Nat)
    (acc ts : List Token),
    tokLoopF n todo line col acc = .ok ts →
    (∀ t ∈ acc, t.line ≤ line) →
    List.Pairwise (fun a b => a.line ≤ b.line) acc →
    (∀ t ∈ acc, opValOK t) →
    (∀ t ∈ ts, opValOK t) ∧ List.Pairwise (fun a b => a.line ≤ b.line) ts := by
  intro n
  induction n with
  | zero =>
    intro todo line col acc ts h _ hpw hop
    have h' : (Except.ok acc : Except LexError (List Token)) = .ok ts := h
    injection h' with h'
    subst h'
    exact ⟨hop, hpw⟩
  | succ n ih =>
    intro todo line col acc ts h hline hpw hop
    cases todo with
    | nil =>
      rw [tokLoopF_nil] at h
      injection h with h'
      subst h'
      exact ⟨hop, hpw⟩
    | cons c rest =>
      have hbody : tokLoopF (n + 1) (c :: rest) line col acc
          = tokBody (tokLoopF n) (c :: rest) line col acc := rfl
      rw [hbody] at h
      simp only [tokBody] at h
      set l2 := if c = '\n' then line + 1 else line with hl2
      set c2 := if c = '\n' then 1 else col with hc2
      have hll2 : line ≤ l2 := by rw [hl2]; split <;> omega
      cases hstep : stepOf c rest l2 c2 with
      | error e =>
        rw [hstep] at h
        exact (Except.noConfusion h)
      | ok p =>
        obtain ⟨o, todo2⟩ := p
        rw [hstep] at h
        cases o with
        | none =>
          exact ih todo2 l2 (c2 + 1) acc ts h
            (fun t ht => le_trans (hline t ht) hll2) hpw hop
        | some t =>
          obtain ⟨htl, htop⟩ := stepOf_emit_props _ _ _ _ _ _ hstep
          apply ih todo2 l2 (c2 + 1) (acc ++ [t]) ts h
          · intro u hu
            rcases List.mem_append.mp hu with hu | hu
            · exact le_trans (hline u hu) hll2
            · have hu' : u = t := by simpa using hu
              subst hu'
              exact le_of_eq htl
          · refine List.pairwise_append.mpr ⟨hpw, by simp, ?_⟩
            intro a ha b hb
            have hb' : b = t := by simpa using hb
            subst hb'
            exact htl ▸ le_trans (hline a ha) hll2
          · intro u hu
            rcases List.mem_append.mp hu with hu | hu
            · exact hop u hu
            · have hu' : u = t := by simpa using hu
              subst hu'
              exact htop

/-- The word classifier written as the three-way case split of the
spec: exactly true, exactly false, or an identifier. -/
theorem classifyWord_cases (lexeme : List Char) (line col : Nat) :
    classifyWord lexeme line col =
      if lexeme = ['t', 'r', 'u', 'e'] then ⟨"bool", .vbool true, line, col⟩
      else if lexeme = ['f', 'a', 'l', 's', 'e'] then ⟨"bool", .vbool false, line, col⟩
      else ⟨"identifier", .vstr lexeme, line, col⟩ := by
  unfold classifyWord
  by_cases h1 : lexeme = ['t', 'r', 'u', 'e']
  · subst h1
    rw [if_pos (Or.inl rfl), if_pos rfl]
    rfl
  · by_cases h2 : lexeme = ['f', 'a', 'l', 's', 'e']
    · subst h2
      rw [if_pos (Or.inr rfl), if_neg (by decide), if_pos rfl]
      rfl
    · rw [if_neg (by rintro (h | h) <;> contradiction), if_neg h1, if_neg h2]

/-- C1, corrected.  A line feed increments line and resets col to 1
before the character is classified (it is then skipped as whitespace),
but the uniform end-of-iteration col increment applies to the line
feed as well, so the character after a line feed is scanned at col 2;
and characters consumed inside a multi-character lexeme's inner scan
update neither line nor col, so a line feed inside a string literal
does not increment line.  Tokens are stamped with the line and col
values current at the start of their iteration. -/
theorem C1_position_tracking :
    (∀ (rest : List Char) (line col : Nat) (acc : List Token),
      tokLoop ('\n' :: rest) line col acc = tokLoop rest (line + 1) 2 acc)
    ∧ tokenize "\nx".toList = .ok [⟨"identifier", .vstr ['x'], 2, 2⟩]
    ∧ tokenize "\"a\nb\"x".toList =
        .ok [⟨"string", .vstr ['a', '\n', 'b'], 1, 1⟩,
             ⟨"identifier", .vstr ['x'], 1, 2⟩] := by
  refine ⟨?_, rfl, rfl⟩
  intro rest line col acc
  rw [tokLoop_cons]
  simp only [if_pos rfl]
  rw [stepOf_newline]
  rfl

/-- C1, counterexample to the claim as stated.  In the first input one
line feed precedes the token for x (it sits inside the string
literal), yet that token carries line 1, not 2; in the second input x
is the first character after a line feed, yet it carries col 2, while
under the claimed accounting (the line feed resets col to 1 and only
other consumed characters increment col after being consumed) it would
carry col 1. -/
theorem C1_counterexample :
    tokenize "\"a\nb\"x".toList =
      .ok [⟨"string", .vstr ['a', '\n', 'b'], 1, 1⟩,
           ⟨"identifier", .vstr ['x'], 1, 2⟩]
    ∧ ("\"a\nb\"".toList).count '\n' = 1
    ∧ tokenize "\nx".toList = .ok [⟨"identifier", .vstr ['x'], 2, 2⟩] :=
  ⟨rfl, rfl, rfl⟩

/-- C2, corrected.  When the string scan reaches the end of the source
(that is, every double quote after the opener is escaped in the
running-prev sense, so the scan never breaks), tokenize fails with the
unterminated-string error exactly when the character at the final
position of the source is not a double quote: the error direction and
the success direction are both proved in general.  In particular an
opening quote followed by at least one character and no double quote
anywhere after it fails this way, while a source whose last character
is an escaped double quote succeeds with the accumulated value stored
verbatim, and a lone opening quote at the end of input succeeds with
an empty string token. -/
theorem C2_unterminated_amended :
    (∀ (rest : List Char) (line col : Nat) (acc : List Token),
      allEscaped '"' rest → ¬ rest.getLastD '"' = '"' →
      tokLoop ('"' :: rest) line col acc = .error .unterminatedString)
    ∧ (∀ (rest : List Char) (line col : Nat) (acc : List Token),
      allEscaped '"' rest → rest.getLastD '"' = '"' →
      tokLoop ('"' :: rest) line col acc =
        .ok (acc ++ [⟨"string", .vstr rest, line, col⟩]))
    ∧ (∀ rest : List Char, rest ≠ [] → '"' ∉ rest →
      tokenize ('"' :: rest) = .error .unterminatedString)
    ∧ tokenize ['"'] = .ok [⟨"string", .vstr [], 1, 1⟩] := by
  have herr : ∀ (rest : List Char) (line col : Nat) (acc : List Token),
      allEscaped '"' rest → ¬ rest.getLastD '"' = '"' →
      tokLoop ('"' :: rest) line col acc = .error .unterminatedString := by
    intro rest line col acc hesc hlast
    have hscan := scanStr_exhaust rest '"' [] hesc
    apply tokLoop_err _ _ _ _ _ _ (by decide)
    rw [stepOf_quote, hscan, if_pos ⟨rfl, hlast⟩]
  refine ⟨herr, ?_, ?_, rfl⟩
  · intro rest line col acc hesc hlast
    have hscan := scanStr_exhaust rest '"' [] hesc
    have hemit : stepOf '"' rest line col =
        .ok (some ⟨"string", .vstr rest, line, col⟩, []) := by
      rw [stepOf_quote, hscan, if_neg (fun hc => hc.2 hlast)]
      rfl
    rw [tokLoop_emit '"' rest [] line col acc ⟨"string", .vstr rest, line, col⟩
      (by decide) hemit]
    rfl
  · intro rest hne hq
    exact herr rest 1 1 [] (allEscaped_of_no_quote rest '"' hq)
      (fun hl => hq (hl ▸ getLastD_mem_of_ne_nil rest '"' hne))

/-- C2, witness: the error direction at a source with an interior
escaped quote and a non-quote final character, the success direction
at a source ending in an escaped quote, and the spec's own example. -/
theorem C2_witness :
    (allEscaped '"' ['a', '\\', '"', 'b'] ∧ ¬ (['a', '\\', '"', 'b'].getLastD '"') = '"'
      ∧ tokLoop ('"' :: ['a', '\\', '"', 'b']) 1 1 [] = .error .unterminatedString)
    ∧ (allEscaped '"' ['a', '\\', '"'] ∧ (['a', '\\', '"'].getLastD '"') = '"'
      ∧ tokLoop ('"' :: ['a', '\\', '"']) 1 1 []
          = .ok [⟨"string", .vstr ['a', '\\', '"'], 1, 1⟩])
    ∧ ("unterminated".toList ≠ [] ∧ '"' ∉ "unterminated".toList
      ∧ tokenize ('"' :: "unterminated".toList) = .error .unterminatedString) :=
  ⟨⟨by decide, by decide, C2_unterminated_amended.1 _ 1 1 [] (by decide) (by decide)⟩,
   ⟨by decide, by decide, C2_unterminated_amended.2.1 _ 1 1 [] (by decide) (by decide)⟩,
   ⟨by decide, by decide, C2_unterminated_amended.2.2.1 _ (by decide) (by decide)⟩⟩

/-- C2, counterexample to the claim as stated: this input opens a
string and ends before any unescaped closing quote (its final quote is
escaped, the character consumed before it being a backslash), yet
tokenize succeeds, because the error test of line 113 only checks that
the final character of the source is not a double quote. -/
theorem C2_counterexample :
    tokenize ['"', 'a', '\\', '"'] =
      .ok [⟨"string", .vstr ['a', '\\', '"'], 1, 1⟩] := rfl

/-- C3, confirmed (phrased at the scan loop, i.e. at any position the
scanner classifies): a 0 whose following character is a digit aborts
with the leading-zero error; a 0 not followed by a digit emits
Number(0) and scanning continues right after it. -/
theorem C3_leading_zero :
    (∀ (rest : List Char) (line col : Nat) (acc : List Token), headIsDigit rest →
      tokLoop ('0' :: rest) line col acc = .error .leadingZero)
    ∧ (∀ (rest : List Char) (line col : Nat) (acc : List Token), ¬ headIsDigit rest →
      tokLoop ('0' :: rest) line col acc =
        tokLoop rest line (col + 1) (acc ++ [⟨"number", .vnum 0, line, col⟩]))
    ∧ tokenize "01".toList = .error .leadingZero
    ∧ tokenize "0".toList = .ok [⟨"number", .vnum 0, 1, 1⟩] := by
  refine ⟨?_, ?_, rfl, rfl⟩
  · intro rest line col acc hd
    apply tokLoop_err _ _ _ _ _ _ (by decide)
    rw [stepOf_zero, if_pos hd]
  · intro rest line col acc hd
    apply tokLoop_emit _ _ _ _ _ _ _ (by decide)
    rw [stepOf_zero, if_neg hd]

/-- C3, witness at concrete inputs for both directions. -/
theorem C3_witness :
    (headIsDigit ['1'] ∧ tokLoop ['0', '1'] 1 1 [] = .error .leadingZero)
    ∧ (¬ headIsDigit ([] : List Char)
       ∧ tokLoop ['0'] 1 1 [] = tokLoop [] 1 2 [⟨"number", .vnum 0, 1, 1⟩]) :=
  ⟨⟨by decide, C3_leading_zero.1 ['1'] 1 1 [] (by decide)⟩,
   ⟨by decide, C3_leading_zero.2.1 [] 1 1 [] (by decide)⟩⟩

/-- C4, confirmed: a string body in which every double quote is
escaped, and whose last character (equivalently, the character
consumed just before the closing quote; the opening quote itself when
the body is empty) is not a backslash, is stored verbatim in the
token value, backslashes included; the scan stops at the closing
quote, consumes it, does not include it in the value, and resumes
right after it. -/
theorem C4_string_verbatim :
    ∀ (content rest : List Char) (line col : Nat) (acc : List Token),
      noUnescapedQuote content → ¬ content.getLastD '"' = '\\' →
      tokLoop ('"' :: (content ++ '"' :: rest)) line col acc =
        tokLoop rest line (col + 1)
          (acc ++ [⟨"string", .vstr content, line, col⟩]) := by
  intro content rest line col acc hq hl
  have hch := okChain_of_noUnescaped content hq hl
  have hscan := scanStr_chain content rest '"' [] hch
  apply tokLoop_emit _ _ _ _ _ _ _ (by decide)
  rw [stepOf_quote, hscan, if_neg (fun hc => hc.2 rfl)]
  rfl

/-- C4, witness: the spec's example body with an escaped quote is
stored unaltered and the scan ends at the first unescaped quote. -/
theorem C4_witness :
    noUnescapedQuote ['a', 'b', 'c', '\\', '"', 'd', 'e', 'f']
    ∧ tokLoop ('"' :: (['a', 'b', 'c', '\\', '"', 'd', 'e', 'f'] ++ '"' :: [])) 1 1 []
        = tokLoop [] 1 2 [⟨"string", .vstr ['a', 'b', 'c', '\\', '"', 'd', 'e', 'f'], 1, 1⟩] :=
  ⟨by decide, C4_string_verbatim _ _ 1 1 [] (by decide) (by decide)⟩

/-- C5, confirmed (phrased at the scan loop): a nonzero digit consumes
the maximal digit run, emits it as one decimal Number token, and
scanning resumes exactly at the first non-digit, which is not
consumed. -/
theorem C5_number_maximal_munch :
    (∀ (d : Char) (ds rest : List Char) (line col : Nat) (acc : List Token),
      isDigitC d → ¬ d = '0' → (∀ c ∈ ds, isDigitC c) → ¬ headIsDigit rest →
      tokLoop (d :: (ds ++ rest)) line col acc =
        tokLoop rest line (col + 1)
          (acc ++ [⟨"number", .vnum (natOfDigits (d :: ds)), line, col⟩]))
    ∧ tokenize "243".toList = .ok [⟨"number", .vnum 243, 1, 1⟩] := by
  refine ⟨?_, rfl⟩
  intro d ds rest line col acc hd h0 hds hrest
  have hnl : ¬ d = '\n' := (isDigitC_noEarlier d hd).2.2.2
  apply tokLoop_emit _ _ _ _ _ _ _ hnl
  rw [stepOf_digit _ _ _ _ hd h0, scanNum_spec ds rest [d] hds hrest]
  rfl

/-- C5, witness at the spec's example run 243. -/
theorem C5_witness :
    (isDigitC '2' ∧ ¬ '2' = '0' ∧ (∀ c ∈ ['4', '3'], isDigitC c)
      ∧ ¬ headIsDigit ([] : List Char))
    ∧ tokLoop ('2' :: (['4', '3'] ++ [])) 1 1 []
        = tokLoop [] 1 2 [⟨"number", .vnum 243, 1, 1⟩] :=
  ⟨⟨by decide, by decide, by decide, by decide⟩,
   C5_number_maximal_munch.1 '2' ['4', '3'] [] 1 1 [] (by decide) (by decide)
     (by decide) (by decide)⟩

/-- C6, confirmed (phrased at the scan loop): an identifier-start
character consumes the maximal run of identifier characters; the
lexemes true and false become Boolean tokens with the corresponding
value, every other lexeme an Identifier token with the raw text. -/
theorem C6_ident_bool_classification :
    (∀ (c : Char) (l rest : List Char) (line col : Nat) (acc : List Token),
      isIdent1 c → (∀ x ∈ l, isIdent2 x) → ¬ headIsIdent2 rest →
      tokLoop (c :: (l ++ rest)) line col acc =
        tokLoop rest line (col + 1)
          (acc ++ [if c :: l = ['t', 'r', 'u', 'e'] then ⟨"bool", .vbool true, line, col⟩
                   else if c :: l = ['f', 'a', 'l', 's', 'e'] then
                     ⟨"bool", .vbool false, line, col⟩
                   else ⟨"identifier", .vstr (c :: l), line, col⟩]))
    ∧ tokenize "true false".toList =
        .ok [⟨"bool", .vbool true, 1, 1⟩, ⟨"bool", .vbool false, 1, 3⟩]
    ∧ tokenize "foo-bar_1".toList =
        .ok [⟨"identifier", .vstr "foo-bar_1".toList, 1, 1⟩] := by
  refine ⟨?_, rfl, rfl⟩
  intro c l rest line col acc hc hl hrest
  have hnl : ¬ c = '\n' := (isIdent1_noEarlier c hc).2.2.2.2.2.2
  apply tokLoop_emit _ _ _ _ _ _ _ hnl
  rw [stepOf_ident _ _ _ _ hc, scanIdent_spec l rest [c] hl hrest]
  simp only [List.singleton_append]
  rw [classifyWord_cases]

/-- C6, witness: the lexeme true becomes a Boolean token. -/
theorem C6_witness :
    (isIdent1 't' ∧ (∀ x ∈ ['r', 'u', 'e'], isIdent2 x)
      ∧ ¬ headIsIdent2 ([] : List Char))
    ∧ tokLoop ('t' :: (['r', 'u', 'e'] ++ [])) 1 1 []
        = tokLoop [] 1 2 [⟨"bool", .vbool true, 1, 1⟩] :=
  ⟨⟨by decide, by decide, by decide⟩,
   C6_ident_bool_classification.1 't' ['r', 'u', 'e'] [] 1 1 [] (by decide)
     (by decide) (by decide)⟩

/-- C7, confirmed (phrased at the scan loop): an operator character
followed by an equals sign consumes both and emits the two-character
operator; otherwise the single character is emitted and the following
character is not consumed. -/
theorem C7_operator_greedy :
    (∀ (c : Char) (rest2 : List Char) (line col : Nat) (acc : List Token), isOp c →
      tokLoop (c :: '=' :: rest2) line col acc =
        tokLoop rest2 line (col + 1) (acc ++ [⟨"operator", .vstr [c, '='], line, col⟩]))
    ∧ (∀ (c : Char) (rest : List Char) (line col : Nat) (acc : List Token),
      isOp c → ¬ headIsEq rest →
      tokLoop (c :: rest) line col acc =
        tokLoop rest line (col + 1) (acc ++ [⟨"operator", .vstr [c], line, col⟩]))
    ∧ tokenize "<= >= < > = ==".toList =
        .ok [⟨"operator", .vstr ['<', '='], 1, 1⟩, ⟨"operator", .vstr ['>', '='], 1, 3⟩,
             ⟨"operator", .vstr ['<'], 1, 5⟩, ⟨"operator", .vstr ['>'], 1, 7⟩,
             ⟨"operator", .vstr ['='], 1, 9⟩, ⟨"operator", .vstr ['=', '='], 1, 11⟩] := by
  refine ⟨?_, ?_, rfl⟩
  · intro c rest2 line col acc hc
    have hnl : ¬ c = '\n' := (isOp_noEarlier c hc).2.2.2.2.2.2.2.2
    apply tokLoop_emit _ _ _ _ _ _ _ hnl
    exact stepOf_op2 c rest2 line col hc
  · intro c rest line col acc hc hne
    have hnl : ¬ c = '\n' := (isOp_noEarlier c hc).2.2.2.2.2.2.2.2
    apply tokLoop_emit _ _ _ _ _ _ _ hnl
    exact stepOf_op1 c rest line col hc hne

/-- C7, witness for both the two-character and one-character cases. -/
theorem C7_witness :
    (isOp '<' ∧ tokLoop ('<' :: '=' :: []) 1 1 []
        = tokLoop [] 1 2 [⟨"operator", .vstr ['<', '='], 1, 1⟩])
    ∧ (isOp '=' ∧ ¬ headIsEq ([] : List Char)
       ∧ tokLoop ('=' :: []) 1 1 [] = tokLoop [] 1 2 [⟨"operator", .vstr ['='], 1, 1⟩]) :=
  ⟨⟨by decide, C7_operator_greedy.1 '<' [] 1 1 [] (by decide)⟩,
   ⟨by decide, by decide, C7_operator_greedy.2.1 '=' [] 1 1 [] (by decide) (by decide)⟩⟩

/-- C8, corrected: a successful scan's operator tokens draw their
values from the six spellings =, <, >, ==, <=, >= — the set claimed by
the spec's data model plus the two-character ==, which the operator
branch also produces. -/
theorem C8_operator_values_amended :
    ∀ (source : List Char) (ts : List Token), tokenize source = .ok ts →
      ∀ t ∈ ts, t.type = "operator" →
        t.value ∈ [TokValue.vstr ['='], TokValue.vstr ['<'], TokValue.vstr ['>'],
          TokValue.vstr ['=', '='], TokValue.vstr ['<', '='], TokValue.vstr ['>', '=']] := by
  intro source ts h t ht hop
  exact (tokLoopF_sound source.length source 1 1 [] ts h (by simp) (by simp) (by simp)).1
    t ht hop

/-- C8, counterexample to the claim as stated: the input of two equals
signs produces an operator token spelled ==, which is not in the
claimed value set consisting of =, <, <=, >, >=. -/
theorem C8_counterexample :
    tokenize "==".toList = .ok [⟨"operator", .vstr ['=', '='], 1, 1⟩]
    ∧ TokValue.vstr ['=', '='] ∉ [TokValue.vstr ['='], TokValue.vstr ['<'],
        TokValue.vstr ['<', '='], TokValue.vstr ['>'], TokValue.vstr ['>', '=']] :=
  ⟨rfl, by decide⟩

/-- C8, witness on a successful scan containing an operator token. -/
theorem C8_witness :
    tokenize "a<b".toList =
      .ok [⟨"identifier", .vstr ['a'], 1, 1⟩, ⟨"operator", .vstr ['<'], 1, 2⟩,
        ⟨"identifier", .vstr ['b'], 1, 3⟩]
    ∧ ∀ t ∈ [(⟨"identifier", .vstr ['a'], 1, 1⟩ : Token),
        ⟨"operator", .vstr ['<'], 1, 2⟩, ⟨"identifier", .vstr ['b'], 1, 3⟩],
        t.type = "operator" →
          t.value ∈ [TokValue.vstr ['='], TokValue.vstr ['<'], TokValue.vstr ['>'],
            TokValue.vstr ['=', '='], TokValue.vstr ['<', '='], TokValue.vstr ['>', '=']] :=
  ⟨rfl, C8_operator_values_amended "a<b".toList _ rfl⟩

/-- C9, confirmed (phrased at the scan loop): a character matched by
no classification rule is silently dropped, emitting no token and
raising no error, and scanning resumes at the next character. -/
theorem C9_silent_skip :
    (∀ (c : Char) (rest : List Char) (line col : Nat) (acc : List Token),
      ¬ c = '(' → ¬ c = ')' → ¬ isWs c → ¬ c = '0' → ¬ isDigitC c → ¬ c = '"' →
      ¬ isIdent1 c → ¬ isArith c → ¬ isOp c →
      tokLoop (c :: rest) line col acc = tokLoop rest line (col + 1) acc)
    ∧ tokenize "(.)".toList =
        .ok [⟨"paren", .vstr ['o', 'p', 'e', 'n'], 1, 1⟩,
             ⟨"paren", .vstr ['c', 'l', 'o', 's', 'e'], 1, 3⟩] := by
  refine ⟨?_, rfl⟩
  intro c rest line col acc h1 h2 h3 h4 h5 h6 h7 h8 h9
  have hnl : ¬ c = '\n' := by intro he; apply h3; rw [he]; decide
  apply tokLoop_skip _ _ _ _ _ _ hnl
  exact stepOf_unmatched c rest line col h1 h2 h3 h4 h5 h6 h7 h8 h9

/-- C9, witness: a full stop is skipped with no token and no error. -/
theorem C9_witness :
    (¬ isWs '.' ∧ ¬ isDigitC '.' ∧ ¬ isIdent1 '.' ∧ ¬ isArith '.' ∧ ¬ isOp '.')
    ∧ tokLoop ['.'] 1 1 [] = tokLoop [] 1 2 [] :=
  ⟨⟨by decide, by decide, by decide, by decide, by decide⟩,
   C9_silent_skip.1 '.' [] 1 1 [] (by decide) (by decide) (by decide) (by decide)
     (by decide) (by decide) (by decide) (by decide) (by decide)⟩

/-- C10, confirmed: on a successful scan the line stamps of the
returned tokens are non-decreasing in sequence order, since the line
counter only ever grows and each token is stamped with its current
value. -/
theorem C10_lines_monotone :
    ∀ (source : List Char) (ts : List Token), tokenize source = .ok ts →
      List.Pairwise (fun a b => a.line ≤ b.line) ts := by
  intro source ts h
  exact (tokLoopF_sound source.length source 1 1 [] ts h (by simp) (by simp) (by simp)).2

/-- C10, witness on an input spanning two lines. -/
theorem C10_witness :
    tokenize "(\n)".toList =
      .ok [⟨"paren", .vstr ['o', 'p', 'e', 'n'], 1, 1⟩,
           ⟨"paren", .vstr ['c', 'l', 'o', 's', 'e'], 2, 2⟩]
    ∧ List.Pairwise (fun a b => a.line ≤ b.line)
        [(⟨"paren", .vstr ['o', 'p', 'e', 'n'], 1, 1⟩ : Token),
         ⟨"paren", .vstr ['c', 'l', 'o', 's', 'e'], 2, 2⟩] :=
  ⟨rfl, C10_lines_monotone "(\n)".toList _ rfl⟩

end Jasp
